import Mathlib

/-!
Verification of the CAPM trading bot (`algorithmic-trading-capm-bot.py`).
Shallow embedding of the data model and the operations the claims concern.
Python dictionaries are modelled as insertion-ordered association lists
(`dictGet?` / `dictSet` below reproduce lookup and in-place update of the
first matching key, appending new keys at the end, exactly as Python
dictionaries behave). Python float arithmetic is modelled with exact
rationals; integer cents stay integers. Calls that would raise `KeyError`
or `IndexError` in Python are modelled total with a default value, and
every theorem below only evaluates states in which all lookups succeed,
except where a divergence is the point and is documented at the theorem.
-/

namespace CAPM

/-- Association-list lookup: value of the first pair whose key matches,
mirroring a Python dictionary access `d[k]` (`none` models `KeyError`). -/
def dictGet? {κ α : Type} [DecidableEq κ] : List (κ × α) → κ → Option α
  | [], _ => none
  | p :: rest, k => if p.1 = k then some p.2 else dictGet? rest k

/-- Association-list update `d[k] = v`: replaces the first pair with key `k`
in place, or appends `(k, v)` when the key is absent, exactly the
insertion-order semantics of a Python dictionary assignment. -/
def dictSet {κ α : Type} [DecidableEq κ] : List (κ × α) → κ → α → List (κ × α)
  | [], k, v => [(k, v)]
  | p :: rest, k, v => if p.1 = k then (k, v) :: rest else p :: dictSet rest k v

/-- Order side, from `fmclient.OrderSide`. -/
inductive OSide | BUY | SELL
deriving DecidableEq, Repr

/-- Order type, from `fmclient.OrderType`. -/
inductive OType | LIMIT | CANCEL
deriving DecidableEq, Repr

/-- An order as the bot sees it. `fm_id` is the id of the order itself;
`market_fm_id` inlines `order.market.fm_id` (the id of the market the order
rests on) - the source reads both, and they are distinct id spaces. -/
structure Order where
  fm_id : Nat
  market_fm_id : Nat
  price : Int
  units : Int
  order_side : OSide
  order_type : OType
  mine : Bool
  is_pending : Bool
deriving DecidableEq, Repr

/-- One entry of `self.holdings.assets` (the fmclient holdings snapshot):
units held, units available to sell, and the market it belongs to. -/
structure FMAsset where
  units : Int
  units_available : Int
  market_fm_id : Nat
  item : String
deriving DecidableEq, Repr

/-- The fmclient holdings snapshot delivered to the bot. -/
structure FMHoldings where
  cash : Int
  cash_available : Int
  assets : List FMAsset
deriving DecidableEq, Repr

/-- Market metadata from `self.markets`: the security label (`item`) and its
payoff sequence. The source parses `description` with
`[int(a) for a in description.split(",")]`; the comma string of integers is
modelled as the list of integers it parses to. -/
structure MarketInfo where
  item : String
  description : List Int
deriving DecidableEq, Repr

/-- The mutable fields of `CAPMBot` that the claims touch, plus the two
framework inputs the handlers read (`self.holdings` and `Order.current()`).
The fields `_best_bid` and `_best_ask` are recomputed from scratch by
`_get_bid_ask_info` before every read, so they are modelled as the return
values of the view functions rather than stored fields; `_order_book` and
`_tick` are never read by the code under study. Covariance keys, built in
the source as the string `str(a) + "+" + str(b)` of a sorted id pair and
split back with `split("+")` and `int`, are modelled as the sorted pair
itself (the encoding is injective on integer ids, with exact round-trip). -/
structure BotState where
  _payoffs : List (String × List Int)
  _market_ids : List (Nat × MarketInfo)
  _risk_penalty : ℚ
  _session_time : ℚ
  _time_condition_mm : ℚ
  _cash : Int
  _cash_available : Int
  _num_states : Nat
  _current_performance : ℚ
  _current_holdings : List (Nat × Int)
  _current_holdings_item : List (String × Int)
  _current_units_available : List (Nat × Int)
  _variances : List (Nat × ℚ)
  _covariances : List ((Nat × Nat) × ℚ)
  _combination : List Order
  _session_open : Bool
  _waiting_for_server : Bool
  _waiting_for_mm : Bool
  _list_used_up : Bool
  _processed_list : List Order
  _time_start : ℚ
  _time_last_order_sent : ℚ
  _mm_condition_1 : Nat
  _mm_condition_2 : Nat
  fm_holdings : FMHoldings
  current_orders : List (Nat × Order)

/-- The field values set by `CAPMBot.__init__` with the default parameters
`risk_penalty=0.007, session_time=20`; the two framework inputs start
empty. -/
def initState : BotState where
  _payoffs := []
  _market_ids := []
  _risk_penalty := 7 / 1000
  _session_time := 20
  _time_condition_mm := (20 * 3 / 40000) * 60
  _cash := 0
  _cash_available := 0
  _num_states := 0
  _current_performance := 0
  _current_holdings := []
  _current_holdings_item := []
  _current_units_available := []
  _variances := []
  _covariances := []
  _combination := []
  _session_open := false
  _waiting_for_server := false
  _waiting_for_mm := false
  _list_used_up := false
  _processed_list := []
  _time_start := 0
  _time_last_order_sent := 0
  _mm_condition_1 := 0
  _mm_condition_2 := 0
  fm_holdings := ⟨0, 0, []⟩
  current_orders := []

/-- Source `in_dollar`: converts cents to currency units. -/
def in_dollar (cent : ℚ) : ℚ := cent / 100

/-- Source `initialised`: builds `_market_ids` and `_payoffs` from the
framework market table (passed as a parameter, since `self.markets` is
framework input) and then sets `_num_states := len(self._payoffs)` - the
number of entries of the payoffs dictionary, that is the number of distinct
security labels. The source performs no further validation and has no
failure path. -/
def initialised (s : BotState) (markets : List (Nat × MarketInfo)) : BotState :=
  let s := markets.foldl (fun s p =>
    { s with _market_ids := dictSet s._market_ids p.1 p.2,
             _payoffs := dictSet s._payoffs p.2.item p.2.description }) s
  { s with _num_states := s._payoffs.length }

/-- Source `_calculate_variance`: `(1/N) * sum(payoff**2) - (1/N**2) * sum(payoff)**2`,
then divided by 10000 to scale cents to currency units. `N` is
`self._num_states`, passed here explicitly; the payoff entries are the
integers parsed at initialisation. -/
def _calculate_variance (num_states : Nat) (payoff : List Int) : ℚ :=
  let squared_payoff : List Int := payoff.map (fun outcome => outcome ^ 2)
  let variance : ℚ := (1 / (num_states : ℚ)) * ((squared_payoff.sum : Int) : ℚ)
      - (1 / ((num_states : ℚ) ^ 2)) * (((payoff.sum : Int) : ℚ) ^ 2)
  variance / 10000

/-- Source `_expected_return`: sum of `state * (1 / self._num_states)` over
the payoff sequence of the named security (a missing `_payoffs` key would be
a `KeyError`; modelled as the empty sequence). -/
def _expected_return (s : BotState) (item_name : String) : ℚ :=
  let payoff_item := (dictGet? s._payoffs item_name).getD []
  payoff_item.foldl (fun acc state => acc + (state : ℚ) * (1 / (s._num_states : ℚ))) 0

/-- Source `_make_variance`: resets `_variances` to empty and fills it with
`_calculate_variance` of each market, in `_market_ids` insertion order. -/
def _make_variance (s : BotState) : BotState :=
  { s with _variances := s._market_ids.foldl (fun d p =>
      dictSet d p.1 (_calculate_variance s._num_states
        ((dictGet? s._payoffs p.2.item).getD []))) [] }

/-- Source `_calculate_covariance`:
`(1/N) * sum(payoff1[s] * payoff2[s] for s in range(N)) - er1 * er2`,
divided by 10000. Indexing past the end of a payoff list would be an
`IndexError` in Python; modelled as 0 (all theorems evaluate consistent
configurations where the index stays in range). -/
def _calculate_covariance (s : BotState) (item1 item2 : String) : ℚ :=
  let payoff1 := (dictGet? s._payoffs item1).getD []
  let payoff2 := (dictGet? s._payoffs item2).getD []
  let er1 := _expected_return s item1
  let er2 := _expected_return s item2
  let multiply_payoff_state : List Int :=
    (List.range s._num_states).map (fun st => payoff1.getD st 0 * payoff2.getD st 0)
  let cov : ℚ := (1 / (s._num_states : ℚ)) * ((multiply_payoff_state.sum : Int) : ℚ) - er1 * er2
  cov / 10000

/-- Source `_make_covariance`: for every ordered pair of distinct keys of
`_current_holdings`, stores the covariance of the two securities under the
sorted key pair. The source does not reset `_covariances` first, so the
fold starts from the existing entries. -/
def _make_covariance (s : BotState) : BotState :=
  let keys := s._current_holdings.map (fun p => p.1)
  { s with _covariances :=
      keys.foldl (fun d id1 =>
        keys.foldl (fun d id2 =>
          if id1 ≠ id2 then
            dictSet d (min id1 id2, max id1 id2)
              (_calculate_covariance s
                (((dictGet? s._market_ids id1).map (fun m => m.item)).getD "")
                (((dictGet? s._market_ids id2).map (fun m => m.item)).getD ""))
          else d) d) s._covariances }

/-- Source `_payoff_variance_covariance`: sum of `holding[m]**2 * variances[m]`
over the keys of the holding dictionary, plus `2 * holding[a] * holding[b] * cov`
for every stored covariance pair `(a, b)`. Missing keys would raise
`KeyError`; modelled as 0. -/
def _payoff_variance_covariance (s : BotState) (holding : List (Nat × Int)) : ℚ :=
  let v1 : ℚ := holding.foldl (fun acc p =>
      acc + ((p.2 : ℚ) ^ 2) * (dictGet? s._variances p.1).getD 0) 0
  s._covariances.foldl (fun acc q =>
      acc + 2 * (((dictGet? holding q.1.1).getD 0 : Int) : ℚ)
              * (((dictGet? holding q.1.2).getD 0 : Int) : ℚ) * q.2) v1

/-- Source `_current_holdings_info`: refreshes `_current_holdings`,
`_current_holdings_item` and `_current_units_available` from the framework
holdings snapshot `self.holdings.assets`. Stale keys absent from the
snapshot are kept, exactly as in the source. -/
def _current_holdings_info (s : BotState) : BotState :=
  s.fm_holdings.assets.foldl (fun s v =>
    { s with
      _current_holdings := dictSet s._current_holdings v.market_fm_id v.units,
      _current_holdings_item := dictSet s._current_holdings_item v.item v.units,
      _current_units_available :=
        dictSet s._current_units_available v.market_fm_id v.units_available }) s

/-- Source `_calculate_performance`: expected payoff (cash in currency units
plus expected return of each held security times its units) minus
`_risk_penalty` times the portfolio payoff variance. The loop iterates the
keys of `self._current_holdings` but indexes the `holdings` argument, as in
the source. -/
def _calculate_performance (s : BotState) (cash : Int) (holdings : List (Nat × Int)) : ℚ :=
  let b := s._risk_penalty
  let payoff_variance := _payoff_variance_covariance s holdings
  let expected_payoff : ℚ := s._current_holdings.foldl (fun acc p =>
      acc + in_dollar (_expected_return s
              (((dictGet? s._market_ids p.1).map (fun m => m.item)).getD ""))
          * (((dictGet? holdings p.1).getD 0 : Int) : ℚ)) (in_dollar (cash : ℚ))
  expected_payoff - b * payoff_variance

/-- Source `get_potential_performance`: refreshes the holdings caches, then
applies each order to `holdings` and `cash` - but `holdings` is
`self._current_holdings` itself (a Python alias, not a copy), so the updated
dictionary is the stored field; the returned pair is (state after the call,
returned score). A `SELL` book order adds units and subtracts
`price * units` from cash; any other side subtracts units and adds cash. -/
def get_potential_performance (s : BotState) (orders : List Order) : BotState × ℚ :=
  let s := _current_holdings_info s
  let hc : List (Nat × Int) × Int := orders.foldl (fun hc order =>
      let holdings := hc.1
      let cash := hc.2
      if order.order_side = OSide.SELL then
        (dictSet holdings order.market_fm_id
           ((dictGet? holdings order.market_fm_id).getD 0 + order.units),
         cash - order.price * order.units)
      else
        (dictSet holdings order.market_fm_id
           ((dictGet? holdings order.market_fm_id).getD 0 - order.units),
         cash + order.price * order.units)) (s._current_holdings, s._cash)
  let s := { s with _current_holdings := hc.1 }
  (s, _calculate_performance s hc.2 hc.1)

/-- Source `_order_valid`: simulates one order against current cash and
available units. `units_available` aliases `self._current_units_available`,
so the `SELL` branch mutates the stored field; the returned pair is
(state after the call, verdict). -/
def _order_valid (s : BotState) (order : Order) : BotState × Bool :=
  let cash := s._cash
  let units_available := s._current_units_available
  let cu : Int × List (Nat × Int) :=
    if order.order_side = OSide.BUY then (cash - order.price, units_available)
    else if order.order_side = OSide.SELL then
      (cash, dictSet units_available order.market_fm_id
               ((dictGet? units_available order.market_fm_id).getD 0 - order.units))
    else (cash, units_available)
  let s := { s with _current_units_available := cu.2 }
  if cu.1 < 0 then (s, false)
  else if (dictGet? cu.2 order.market_fm_id).getD 0 < 0 then (s, false)
  else (s, true)

/-- The loop body of `_list_order_valid`: a `BUY` book order subtracts its
units from the available units of its market, a `SELL` book order subtracts
its price from cash. -/
def lov_step (cu : Int × List (Nat × Int)) (order : Order) : Int × List (Nat × Int) :=
  let cash := cu.1
  let units_available := cu.2
  if order.order_side = OSide.BUY then
    (cash, dictSet units_available order.market_fm_id
             ((dictGet? units_available order.market_fm_id).getD 0 - order.units))
  else if order.order_side = OSide.SELL then
    (cash - order.price, units_available)
  else cu

/-- Source `_list_order_valid`: an empty list is invalid; otherwise
`lov_step` runs over the legs starting from current cash and available
units, the mutated dictionary is stored back (it aliases
`self._current_units_available` in the source), and the two non-negativity
checks decide the verdict. -/
def _list_order_valid (s : BotState) (potential_orders : List Order) : BotState × Bool :=
  if potential_orders = [] then (s, false)
  else
    let cu := potential_orders.foldl lov_step (s._cash, s._current_units_available)
    let s2 := { s with _current_units_available := cu.2 }
    if cu.1 < 0 then (s2, false)
    else if cu.2.any (fun p => p.2 < 0) then (s2, false)
    else (s2, true)

/-- Source `_get_bid_ask_info`: scans `Order.current().items()` and builds the
best-bid and best-ask dictionaries keyed by `order.market.fm_id`. The
membership test and the price lookup of the `else` branch use `order.fm_id`
(the id of the order itself), exactly as in the source; entries are stored
as a one-unit copy of the order. Returns `(best_bid, best_ask)`. -/
def _get_bid_ask_info (current_order_list : List (Nat × Order)) :
    List (Nat × Order) × List (Nat × Order) :=
  current_order_list.foldl (fun ba p =>
    let best_bid := ba.1
    let best_ask := ba.2
    let order := p.2
    if order.order_side = OSide.BUY ∧ order.mine = false then
      match dictGet? best_bid order.fm_id with
      | none => (dictSet best_bid order.market_fm_id { order with units := 1 }, best_ask)
      | some prev =>
          if order.price > prev.price then
            (dictSet best_bid order.market_fm_id { order with units := 1 }, best_ask)
          else ba
    else if order.order_side = OSide.SELL ∧ order.mine = false then
      match dictGet? best_ask order.fm_id with
      | none => (best_bid, dictSet best_ask order.market_fm_id { order with units := 1 })
      | some prev =>
          if order.price < prev.price then
            (best_bid, dictSet best_ask order.market_fm_id { order with units := 1 })
          else ba
    else ba) ([], [])

/-- Insertion of one keyed entry into a list sorted by key (helper for
`_bid_ask_info_dict_to_list`). -/
def insertByKey (p : Nat × Order) : List (Nat × Order) → List (Nat × Order)
  | [] => [p]
  | q :: rest => if p.1 ≤ q.1 then p :: q :: rest else q :: insertByKey p rest

/-- Sorting a keyed list by key. The source sorts the `(key, order)` item
tuples with the Python `sorted`; dictionary keys are unique, so the tuple
comparison never reaches the order component and the result is the items
sorted by key. -/
def sortByKey (l : List (Nat × Order)) : List (Nat × Order) :=
  l.foldr insertByKey []

/-- Source `_bid_ask_info_dict_to_list`: runs `_get_bid_ask_info`, sorts each
dictionary by key and keeps the order values. Returns
`(best_ask_list, best_bid_list)` in the order the source stores them. -/
def _bid_ask_info_dict_to_list (current_order_list : List (Nat × Order)) :
    List Order × List Order :=
  let ba := _get_bid_ask_info current_order_list
  ((sortByKey ba.2).map (fun p => p.2), (sortByKey ba.1).map (fun p => p.2))

/-- The overlap test of `_possible_combinations`: whether two legs at
distinct positions of the candidate rest on the same market
(`combination[j].market.fm_id == combination[k].market.fm_id` for `j != k`). -/
def marketsOverlap (combination : List Order) : Bool :=
  decide (∃ j : Fin combination.length, ∃ k : Fin combination.length,
    j ≠ k ∧ (combination.get j).market_fm_id = (combination.get k).market_fm_id)

/-- The enumeration core of `_possible_combinations`, over the concatenated
best-ask and best-bid list: every single-leg candidate, then for every size
from 2 to `_num_states` every size-subset (in list order, as
`itertools.combinations` draws them) that has no two legs on the same
market. -/
def _possible_combinations_from (combine_bid_ask : List Order) (num_states : Nat) :
    List (List Order) :=
  combine_bid_ask.map (fun o => [o]) ++
    (List.range' 2 (num_states - 1)).flatMap (fun i =>
      (List.sublistsLen i combine_bid_ask).filter (fun c => !marketsOverlap c))

/-- Source `_possible_combinations`: refreshes the best bid and ask lists
from the live book and enumerates the candidates from
`list(self._best_ask) + list(self._best_bid)`. -/
def _possible_combinations (s : BotState) : List (List Order) :=
  let lists := _bid_ask_info_dict_to_list s.current_orders
  _possible_combinations_from (lists.1 ++ lists.2) s._num_states

/-- Source `_most_optimal_performance`: iterates the enumerated combinations
once; whenever a candidate scores strictly above `self._current_performance`
(the stored field, not the running best) and passes `_list_order_valid`, the
candidate is stored in `_combination` and its score (recomputed by a second
`get_potential_performance` call, as in the source) becomes the returned
`performance_score`. The stateful calls thread the state exactly as the
Python evaluation order does, including the short-circuit `and` that skips
`_list_order_valid` when the score does not beat the stored performance. -/
def _most_optimal_performance (s : BotState) : BotState × ℚ :=
  let combos := _possible_combinations s
  combos.foldl (fun acc combination =>
    let sp := get_potential_performance acc.1 combination
    if sp.2 > sp.1._current_performance then
      let sv := _list_order_valid sp.1 combination
      if sv.2 then
        let sp2 := get_potential_performance sv.1 combination
        ({ sp2.1 with _combination := combination }, sp2.2)
      else (sv.1, acc.2)
    else (sp.1, acc.2)) (s, 0)

/-- Source `is_portfolio_optimal`: refreshes holdings, computes the current
score `perf1`, and reports non-optimal exactly when
`_most_optimal_performance` returns a value strictly above `perf1`. -/
def is_portfolio_optimal (s : BotState) : BotState × Bool :=
  let s := _current_holdings_info s
  let perf1 := _calculate_performance s s._cash s._current_holdings
  let sb := _most_optimal_performance s
  if sb.2 > perf1 then (sb.1, false) else (sb.1, true)

/-- Source `_if_no_pending_order`: true when no order of the live book is
both mine and pending. -/
def _if_no_pending_order (s : BotState) : Bool :=
  s.current_orders.all (fun p => !(p.2.mine && p.2.is_pending))

/-- Source `_send_valid_order`: the body of this function in the source
consists of its docstring only - it performs no action and sends nothing.
The second component is the list of orders actually handed to the market
(always empty). -/
def _send_valid_order (s : BotState) (order_to_send : Order) : BotState × List Order :=
  (s, [])

/-- Source `_send_order_list`: passes every order not yet in
`_processed_list` to `_send_valid_order`, records it as processed, then sets
`_waiting_for_server` and `_list_used_up`. The second component collects the
orders actually sent to the market. -/
def _send_order_list (s : BotState) (order_list : List Order) : BotState × List Order :=
  let acc := order_list.foldl (fun acc order =>
      if order ∈ acc.1._processed_list then acc
      else
        let ss := _send_valid_order acc.1 order
        ({ ss.1 with _processed_list := ss.1._processed_list ++ [order] },
         acc.2 ++ ss.2)) (s, ([] : List Order))
  ({ acc.1 with _waiting_for_server := true, _list_used_up := true }, acc.2)

/-- The side flip of `received_orders`: a resting `BUY` becomes the sent
`SELL` and conversely, with `units` forced to 1 on the copied order. -/
def flipOrder (order : Order) : Order :=
  { order with
    order_side := match order.order_side with
      | OSide.BUY => OSide.SELL
      | OSide.SELL => OSide.BUY,
    units := 1 }

/-- The reactive part of `received_orders`, after the market-maker branch:
if the portfolio is not optimal, the retained `_combination` is flipped and
handed to `_send_order_list`, provided `_waiting_for_server` is clear and no
own order is pending. Takes and returns (state, orders sent so far). -/
def received_orders_rest (acc : BotState × List Order) : BotState × List Order :=
  let so := is_portfolio_optimal acc.1
  let s := so.1
  let combination := if so.2 = false then s._combination else []
  let not_optimal := so.2 = false
  if not_optimal ∧ s._waiting_for_server = false ∧ _if_no_pending_order s = true then
    let make_order_list := combination.map flipOrder
    let ss := _send_order_list s make_order_list
    (ss.1, acc.2 ++ ss.2)
  else (s, acc.2)

/-- Source `received_orders`: first the market-maker branch (run only when
both `_mm_condition` flags are non-zero and no own order is pending;
`_market_maker_order` draws randomness through `randint`, so it is passed as
a parameter `mm`), then the reactive branch. The second component is the
list of orders actually handed to the market during the call. -/
def received_orders (mm : BotState → BotState × List Order) (s : BotState) :
    BotState × List Order :=
  let acc :=
    if s._mm_condition_1 ≠ 0 ∧ s._mm_condition_2 ≠ 0 ∧ _if_no_pending_order s = true then
      mm s
    else (s, [])
  received_orders_rest acc

/-- Source `received_session_info`: sets the session-open flag when the
session is open and records the wall-clock start time (passed as `now`). -/
def received_session_info (s : BotState) (is_open : Bool) (now : ℚ) : BotState :=
  let s := if is_open then { s with _session_open := true } else s
  { s with _time_start := now }

/-- Source `_order_idle_check`: emits a `CANCEL` copy of every live order
that is pending and mine. The second component is the list of cancel orders
sent through `self.send_order`. -/
def _order_idle_check (s : BotState) : BotState × List Order :=
  (s, s.current_orders.foldl (fun sent p =>
      if p.2.is_pending ∧ p.2.mine then
        sent ++ [{ p.2 with order_type := OType.CANCEL }]
      else sent) [])

/-- A Python runtime error surfacing in a handler. -/
inductive PyError | nameError
deriving DecidableEq, Repr

/-- The module-level binding of the name `IDLE_CHECK_TIME`: the source reads
it at the `threading.Timer` call of `pre_start_tasks`, but no statement of
the module (and no import - the only star import is `from random import *`)
ever assigns it, so the name lookup fails. -/
def IDLE_CHECK_TIME? : Option ℚ := none

/-- Source `pre_start_tasks`: evaluates `threading.Timer(IDLE_CHECK_TIME, ...)`
first - which raises `NameError`, since `IDLE_CHECK_TIME` is unbound - and
only then would run the idle check (when the session is open) and clear the
two flags. On success the second component would be the cancels sent by
`_order_idle_check`. -/
def pre_start_tasks (s : BotState) : Except PyError (BotState × List Order) :=
  match IDLE_CHECK_TIME? with
  | none => Except.error PyError.nameError
  | some _ =>
      let sc := if s._session_open then _order_idle_check s else (s, [])
      Except.ok ({ sc.1 with _waiting_for_server := false, _list_used_up := false }, sc.2)

/-- Source `received_holdings` (the handler body at line 675 of the file):
updates cash and cash-available from the received snapshot, refreshes the
holdings caches, rebuilds variances and covariances, stores the recomputed
current performance, and finally updates the two market-maker time
conditions from the wall clock (passed as `now`). The fmclient framework
refreshes `self.holdings` before invoking the callback, modelled by storing
the snapshot into `fm_holdings` first. -/
def received_holdings (now : ℚ) (s : BotState) (holdings : FMHoldings) : BotState :=
  let s := { s with fm_holdings := holdings,
                    _cash := holdings.cash,
                    _cash_available := holdings.cash_available }
  let s := _current_holdings_info s
  let s := _make_variance s
  let s := _make_covariance s
  let s := { s with _current_performance :=
               _calculate_performance s s._cash s._current_holdings }
  let time_elapsed := now - s._time_start
  { s with
    _mm_condition_1 :=
      if time_elapsed > s._time_condition_mm then 1 else s._mm_condition_1,
    _mm_condition_2 :=
      if s._time_last_order_sent > 0 then
        (if now - s._time_last_order_sent > 1 then 1 else 0)
      else s._mm_condition_2 }

/-! Concrete inputs used by the example-driven theorems. Two securities with
riskless payoffs (all variances and covariances vanish), two competing asks
resting on the book, and a holdings snapshot of 100 cents and no units. -/

/-- Two markets: id 1 trades item `A` with payoffs `100,100`; id 2 trades
item `B` with payoffs `100,100`. -/
def exMarkets : List (Nat × MarketInfo) :=
  [(1, ⟨"A", [100, 100]⟩), (2, ⟨"B", [100, 100]⟩)]

/-- Holdings snapshot: 100 cents cash, no units in either market. -/
def exHoldings : FMHoldings :=
  ⟨100, 100, [⟨0, 0, 1, "A"⟩, ⟨0, 0, 2, "B"⟩]⟩

/-- A competing ask on market 1: one unit at 50 cents. -/
def exAsk1 : Order := ⟨101, 1, 50, 1, OSide.SELL, OType.LIMIT, false, true⟩

/-- A competing ask on market 2: one unit at 80 cents. -/
def exAsk2 : Order := ⟨102, 2, 80, 1, OSide.SELL, OType.LIMIT, false, true⟩

/-- The live book holding the two competing asks. -/
def exBook : List (Nat × Order) := [(101, exAsk1), (102, exAsk2)]

/-- The bot state after `initialised` on `exMarkets` and a first
`received_holdings` of `exHoldings` at time 0, with `exBook` as the live
order book. -/
def exState : BotState :=
  { received_holdings 0 (initialised initState exMarkets) exHoldings with
    current_orders := exBook }

/-- A competing bid on market 1: one unit at 10 cents (used by the
feasibility-checker impurity example). -/
def exBid1 : Order := ⟨301, 1, 10, 1, OSide.BUY, OType.LIMIT, false, true⟩

/-- Two competing bids on market 1, the earlier one at the higher price
(used by the snapshot-view example). -/
def exBuy1 : Order := ⟨201, 1, 10, 1, OSide.BUY, OType.LIMIT, false, true⟩

/-- The later, lower-priced competing bid on market 1. -/
def exBuy2 : Order := ⟨202, 1, 5, 1, OSide.BUY, OType.LIMIT, false, true⟩

/-- A book with the two competing bids of market 1, best price first. -/
def exBook3 : List (Nat × Order) := [(201, exBuy1), (202, exBuy2)]

/-- Markets with payoff sequences of different lengths (3 and 4 states). -/
def exMarkets6 : List (Nat × MarketInfo) :=
  [(1, ⟨"A", [1, 2, 3]⟩), (2, ⟨"B", [4, 3, 2, 1]⟩)]

/-- A single market whose payoff sequence has two entries, so the stored
state count (the number of securities, 1) differs from the sequence
length. -/
def exMarkets8 : List (Nat × MarketInfo) := [(1, ⟨"A", [1, 1]⟩)]

/-- Claim-side definition (following the words of the feasibility claim):
the net cash impact on the agent of trading against a list of book orders -
the agent receives the price of every resting `BUY` it sells into and pays
the price of every resting `SELL` it buys from. -/
def netCashImpact : List Order → Int
  | [] => 0
  | o :: t =>
      (if o.order_side = OSide.BUY then o.price * o.units else -(o.price * o.units)) +
        netCashImpact t

/-- Claim-side definition (following the words of the feasibility claim):
the net inventory impact on market `m` - buying from a resting `SELL` adds
units, selling into a resting `BUY` removes them. -/
def netUnitsImpact : List Order → Nat → Int
  | [], _ => 0
  | o :: t, m =>
      (if o.market_fm_id = m then
        (if o.order_side = OSide.SELL then o.units else -o.units)
       else 0) + netUnitsImpact t m

/-- The cash the code actually deducts over a combination: the summed
prices of the `SELL` legs (proof helper for the feasibility theorem). -/
def sellPriceSum : List Order → Int
  | [] => 0
  | o :: t => (if o.order_side = OSide.SELL then o.price else 0) + sellPriceSum t

/-- The units the code actually deducts on market `m` over a combination:
the summed units of the `BUY` legs resting on `m` (proof helper). -/
def buyUnitsSum : List Order → Nat → Int
  | [], _ => 0
  | o :: t, m =>
      (if o.order_side = OSide.BUY ∧ o.market_fm_id = m then o.units else 0) +
        buyUnitsSum t m

end CAPM

namespace CAPM

/-- Helper: refreshing the holdings caches never touches the cash fields. -/
theorem current_holdings_info_preserves_cash (s : BotState) :
    (_current_holdings_info s)._cash = s._cash ∧
    (_current_holdings_info s)._cash_available = s._cash_available := by
  unfold _current_holdings_info
  generalize s.fm_holdings.assets = l
  induction l generalizing s with
  | nil => exact ⟨rfl, rfl⟩
  | cons a t ih => exact ih _

/-- C1: the holdings handler body (`received_holdings`, line 675) stores the
received cash and cash-available and ends with the stored current
performance equal to `_calculate_performance` of the just-received cash and
the refreshed holdings, evaluated against the refreshed risk model. (The
handler is dedented to module level in the source, so the running agent
never dispatches it; this theorem is about the handler body itself.) -/
theorem received_holdings_recomputes_performance (now : ℚ) (s : BotState) (h : FMHoldings) :
    (received_holdings now s h)._cash = h.cash ∧
    (received_holdings now s h)._cash_available = h.cash_available ∧
    (received_holdings now s h)._current_performance =
      _calculate_performance (received_holdings now s h)
        (received_holdings now s h)._cash
        (received_holdings now s h)._current_holdings := by
  refine ⟨?_, ?_, rfl⟩
  · exact (current_holdings_info_preserves_cash
      { s with fm_holdings := h, _cash := h.cash, _cash_available := h.cash_available }).1
  · exact (current_holdings_info_preserves_cash
      { s with fm_holdings := h, _cash := h.cash, _cash_available := h.cash_available }).2

set_option maxRecDepth 8000 in
/-- C2: on the example state, `[exAsk1]` is an enumerated, feasible
combination scoring 3/2 (strictly above the current performance 1), yet the
search retains the later combination `[exAsk2]` and returns its score 6/5,
which is strictly below 3/2 - the loop compares against the stored current
performance instead of the running best, so the maximum is not kept. -/
theorem most_optimal_keeps_last_improving_not_max :
    [exAsk1] ∈ _possible_combinations exState ∧
    (get_potential_performance exState [exAsk1]).2 = 3 / 2 ∧
    (_list_order_valid exState [exAsk1]).2 = true ∧
    exState._current_performance < 3 / 2 ∧
    (_most_optimal_performance exState).2 = 6 / 5 ∧
    (_most_optimal_performance exState).1._combination = [exAsk2] ∧
    (6 / 5 : ℚ) < 3 / 2 := by
  with_unfolding_all decide

/-- C3: with two competing bids on market 1, the earlier one at price 10 and
the later one at price 5, the snapshot view keeps the later, lower-priced
bid: the membership test uses `order.fm_id` instead of the market id, so the
price comparison never runs and each competing order overwrites the stored
entry. -/
theorem get_bid_ask_info_keeps_last_not_highest :
    (_get_bid_ask_info exBook3).1 = [(1, exBuy2)] ∧
    (_get_bid_ask_info exBook3).2 = [] ∧
    exBuy2.price < exBuy1.price ∧
    exBuy1.mine = false ∧ exBuy1.market_fm_id = 1 := by
  with_unfolding_all decide

set_option maxRecDepth 8000 in
/-- C5: on the example state the reactive gate is fully open - the portfolio
is not optimal, no wait flag is set, no own order is pending - and the
retained improving combination `[exAsk2]` is flipped and handed to
`_send_order_list`; yet the list of orders actually submitted to the market
is empty, because `_send_valid_order` has an empty body, while the
waiting-for-server flag is still set. Holds for every market-maker
behaviour `mm`, since the gating conditions are 0. -/
theorem received_orders_submits_nothing (mm : BotState → BotState × List Order) :
    (is_portfolio_optimal exState).2 = false ∧
    exState._waiting_for_server = false ∧
    _if_no_pending_order exState = true ∧
    (received_orders mm exState).1._combination = [exAsk2] ∧
    (received_orders mm exState).1._waiting_for_server = true ∧
    (received_orders mm exState).2 = [] := by
  have hmm : ¬(exState._mm_condition_1 ≠ 0 ∧ exState._mm_condition_2 ≠ 0 ∧
      _if_no_pending_order exState = true) := by with_unfolding_all decide
  unfold received_orders
  rw [if_neg hmm]
  with_unfolding_all decide

/-- C6: `initialised` on markets whose payoff sequences have lengths 3 and 4
completes normally (the function has no failure path and performs no
consistency check) and stores `_num_states = 2`, the number of securities,
which equals neither payoff-sequence length. -/
theorem initialised_accepts_inconsistent_state_counts :
    (initialised initState exMarkets6)._num_states = 2 ∧
    (initialised initState exMarkets6)._payoffs.map (fun p => p.2.length) = [3, 4] := by
  with_unfolding_all decide

/-- C7: the what-if computations mutate the agent state: after
`get_potential_performance` on one ask the stored holdings map has changed,
and after `_list_order_valid` on one bid the stored available-units map has
changed - `holdings` and `units_available` alias the stored dictionaries
instead of scratch copies. -/
theorem what_if_calls_mutate_agent_state :
    (get_potential_performance exState [exAsk1]).1._current_holdings ≠
      exState._current_holdings ∧
    (_list_order_valid exState [exBid1]).1._current_units_available ≠
      exState._current_units_available := by
  with_unfolding_all decide

set_option maxRecDepth 8000 in
/-- C8 (counterexample): after `initialised` on a single security with the
non-empty payoff sequence `[1, 1]`, the stored number of states is 1 (the
number of securities) and the variance the code computes and stores for that
security is negative (it equals -1/5000): the closed-form value is negative
whenever the stored state count falls below the sequence length. -/
theorem variance_negative_at_stored_state_count :
    (initialised initState exMarkets8)._num_states = 1 ∧
    dictGet? (initialised initState exMarkets8)._payoffs "A" = some [1, 1] ∧
    (dictGet? (_make_variance (initialised initState exMarkets8))._variances 1).getD 0 < 0 ∧
    _calculate_variance (initialised initState exMarkets8)._num_states [1, 1] < 0 := by
  with_unfolding_all decide

/-- C10: every invocation of `pre_start_tasks` raises `NameError` at the
`threading.Timer(IDLE_CHECK_TIME, ...)` call, because the module never binds
`IDLE_CHECK_TIME`; the idle-order check is never reached and no timer is
rescheduled. -/
theorem pre_start_tasks_raises_name_error (s : BotState) :
    pre_start_tasks s = Except.error PyError.nameError :=
  rfl

/-- Helper: looking up the key just written finds the written value. -/
theorem dictGet?_dictSet_self {k a : Type} [DecidableEq k] (d : List (k × a)) (key : k) (v : a) :
    dictGet? (dictSet d key v) key = some v := by
  induction d with
  | nil => simp [dictSet, dictGet?]
  | cons p t ih => by_cases h : p.1 = key <;> simp [dictSet, dictGet?, h, ih]

/-- Helper: writing one key leaves the lookup of any other key unchanged. -/
theorem dictGet?_dictSet_ne {k a : Type} [DecidableEq k] (d : List (k × a)) (key key2 : k)
    (v : a) (h : key2 ≠ key) :
    dictGet? (dictSet d key v) key2 = dictGet? d key2 := by
  induction d with
  | nil => simp [dictSet, dictGet?, Ne.symm h]
  | cons p t ih =>
      by_cases hp : p.1 = key
      · subst hp
        simp [dictSet, dictGet?, Ne.symm h, h]
      · simp [dictSet, dictGet?, hp, ih]

/-- Helper: a successful lookup exhibits a member of the list. -/
theorem dictGet?_mem {k a : Type} [DecidableEq k] (d : List (k × a)) (key : k) (v : a)
    (h : dictGet? d key = some v) : (key, v) ∈ d := by
  induction d with
  | nil => simp [dictGet?] at h
  | cons p t ih =>
      by_cases hp : p.1 = key
      · rw [dictGet?, if_pos hp] at h
        obtain rfl : p.2 = v := by injection h
        subst hp
        exact List.mem_cons_self _ _
      · rw [dictGet?, if_neg hp] at h
        exact List.mem_cons_of_mem _ (ih h)

/-- Helper: the cash component of the feasibility fold is the starting cash
minus the summed prices of the `SELL` legs. -/
theorem lov_fold_cash (orders : List Order) :
    ∀ (cash : Int) (ua : List (Nat × Int)),
      (orders.foldl lov_step (cash, ua)).1 = cash - sellPriceSum orders := by
  induction orders with
  | nil => intro cash ua; simp [sellPriceSum]
  | cons o t ih =>
      intro cash ua
      cases ho : o.order_side <;>
        simp only [List.foldl_cons, lov_step, ho, sellPriceSum, reduceCtorEq,
          if_true, if_false, reduceIte] <;>
        rw [ih] <;> omega

/-- Helper: the units component of the feasibility fold maps every key that
was present at the start to its starting value minus the summed units of the
`BUY` legs on that market. -/
theorem lov_fold_units (orders : List Order) :
    ∀ (cash : Int) (ua : List (Nat × Int)) (m : Nat) (v : Int),
      dictGet? ua m = some v →
      dictGet? (orders.foldl lov_step (cash, ua)).2 m = some (v - buyUnitsSum orders m) := by
  induction orders with
  | nil => intro cash ua m v h; simpa [buyUnitsSum] using h
  | cons o t ih =>
      intro cash ua m v h
      cases ho : o.order_side
      · -- BUY leg: the dictionary is written at the market of the leg
        by_cases hm : o.market_fm_id = m
        · subst hm
          have hset : dictGet?
              (dictSet ua o.market_fm_id ((dictGet? ua o.market_fm_id).getD 0 - o.units))
              o.market_fm_id = some (v - o.units) := by
            rw [dictGet?_dictSet_self, h]
            rfl
          simp only [List.foldl_cons, lov_step, ho, reduceIte]
          rw [ih _ _ _ _ hset, buyUnitsSum]
          simp [ho]
          ring_nf
        · have hset : dictGet?
              (dictSet ua o.market_fm_id ((dictGet? ua o.market_fm_id).getD 0 - o.units))
              m = some v := by
            rw [dictGet?_dictSet_ne _ _ _ _ (Ne.symm hm), h]
          simp only [List.foldl_cons, lov_step, ho, reduceIte]
          rw [ih _ _ _ _ hset, buyUnitsSum]
          simp [hm]
      · -- SELL leg: the dictionary is untouched
        simp only [List.foldl_cons, lov_step, ho, reduceCtorEq, reduceIte]
        rw [ih _ _ _ _ h, buyUnitsSum]
        simp [ho]

/-- Helper: with unit legs and non-negative prices, the cash the code
deducts is at most the absolute value of the net cash impact. -/
theorem neg_sellPriceSum_le_netCashImpact (orders : List Order)
    (hunit : ∀ o ∈ orders, o.units = 1) (hprice : ∀ o ∈ orders, 0 ≤ o.price) :
    -sellPriceSum orders ≤ netCashImpact orders := by
  induction orders with
  | nil => simp [sellPriceSum, netCashImpact]
  | cons o t ih =>
      have ht := ih (fun x hx => hunit x (List.mem_cons_of_mem _ hx))
        (fun x hx => hprice x (List.mem_cons_of_mem _ hx))
      have hu : o.units = 1 := hunit o (List.mem_cons_self _ _)
      have hp : 0 ≤ o.price := hprice o (List.mem_cons_self _ _)
      rw [sellPriceSum, netCashImpact]
      cases ho : o.order_side <;> simp [ho, hu] <;> linarith

/-- Helper: with unit legs, the units the code deducts on a market are at
most the absolute value of the net inventory impact there. -/
theorem neg_buyUnitsSum_le_netUnitsImpact (orders : List Order)
    (hunit : ∀ o ∈ orders, o.units = 1) (m : Nat) :
    -buyUnitsSum orders m ≤ netUnitsImpact orders m := by
  induction orders with
  | nil => simp [buyUnitsSum, netUnitsImpact]
  | cons o t ih =>
      have ht := ih (fun x hx => hunit x (List.mem_cons_of_mem _ hx))
      have hu : o.units = 1 := hunit o (List.mem_cons_self _ _)
      rw [buyUnitsSum, netUnitsImpact]
      by_cases hm : o.market_fm_id = m <;>
        cases ho : o.order_side <;> simp [ho, hm, hu] <;> linarith

/-- C4: the combination feasibility check accumulates the impact of all
legs and rejects whenever the net result is negative: for every non-empty
combination of unit-sized, non-negatively-priced book orders whose markets
are all present in the available-units dictionary, if the cash after the net
cash impact of all legs is negative, or the available units of some present
market after the net inventory impact of all legs are negative, then
`_list_order_valid` returns false - in particular a combination whose
aggregate cash impact drives cash below zero is rejected even when each leg
alone leaves cash non-negative (see the witness). -/
theorem list_order_valid_rejects_negative_net (s : BotState) (orders : List Order)
    (hne : orders ≠ [])
    (hunit : ∀ o ∈ orders, o.units = 1)
    (hprice : ∀ o ∈ orders, 0 ≤ o.price)
    (_hkeys : ∀ o ∈ orders, (dictGet? s._current_units_available o.market_fm_id).isSome = true)
    (hneg : s._cash + netCashImpact orders < 0 ∨
      ∃ m v, dictGet? s._current_units_available m = some v ∧
        v + netUnitsImpact orders m < 0) :
    (_list_order_valid s orders).2 = false := by
  unfold _list_order_valid
  rw [if_neg hne]
  dsimp only
  rcases hneg with hcash | ⟨m, v, hv, hunits⟩
  · have h1 := lov_fold_cash orders s._cash s._current_units_available
    have h2 := neg_sellPriceSum_le_netCashImpact orders hunit hprice
    have hlt : (orders.foldl lov_step (s._cash, s._current_units_available)).1 < 0 := by
      rw [h1]; linarith
    rw [if_pos hlt]
  · have hg := lov_fold_units orders s._cash s._current_units_available m v hv
    have h2 := neg_buyUnitsSum_le_netUnitsImpact orders hunit m
    have hlt : v - buyUnitsSum orders m < 0 := by linarith
    have hany : ((orders.foldl lov_step
        (s._cash, s._current_units_available)).2).any (fun p => p.2 < 0) = true :=
      List.any_eq_true.mpr
        ⟨(m, v - buyUnitsSum orders m), dictGet?_mem _ _ _ hg, by simpa using hlt⟩
    by_cases h1 : (orders.foldl lov_step (s._cash, s._current_units_available)).1 < 0
    · rw [if_pos h1]
    · rw [if_neg h1, if_pos hany]

/-- C4 witness: on the example state each of the two asks alone leaves cash
non-negative (100 - 50 and 100 - 80), yet the two-leg combination, whose
aggregate cash impact is -130, is rejected. -/
theorem list_order_valid_rejects_negative_net_witness :
    0 ≤ exState._cash - exAsk1.price ∧ 0 ≤ exState._cash - exAsk2.price ∧
    (_list_order_valid exState [exAsk1, exAsk2]).2 = false :=
  ⟨by with_unfolding_all decide, by with_unfolding_all decide,
    list_order_valid_rejects_negative_net exState [exAsk1, exAsk2]
      (by decide)
      (by decide)
      (by decide)
      (by with_unfolding_all decide)
      (Or.inl (by with_unfolding_all decide))⟩

/-- Helper: `2ab` is bounded by `a^2 + b^2`, summed over a list. -/
theorem two_mul_sum_le (a : Int) : ∀ l : List Int,
    2 * a * l.sum ≤ (l.length : Int) * a ^ 2 + (l.map (fun x => x ^ 2)).sum
  | [] => by simp
  | b :: t => by
      have ih := two_mul_sum_le a t
      have h2 : 2 * a * b ≤ a ^ 2 + b ^ 2 := by nlinarith [sq_nonneg (a - b)]
      simp only [List.sum_cons, List.map_cons, List.length_cons]
      push_cast
      nlinarith [ih, h2]

/-- Helper: the discrete Cauchy-Schwarz bound - the square of a list sum is
at most the length times the sum of squares. -/
theorem sq_sum_le_length_mul_sum_sq : ∀ l : List Int,
    l.sum ^ 2 ≤ (l.length : Int) * (l.map (fun x => x ^ 2)).sum
  | [] => by simp
  | b :: t => by
      have ih := sq_sum_le_length_mul_sum_sq t
      have h2 := two_mul_sum_le b t
      simp only [List.sum_cons, List.map_cons, List.length_cons]
      push_cast
      nlinarith [ih, h2]

/-- C8 (amended): for every non-empty integer payoff sequence, the variance
computed by the closed-form discrete formula of `_calculate_variance` is
non-negative in exact rational arithmetic provided the stored number of
states equals the length of the payoff sequence (the state-count invariant
the spec demands; the counterexample shows the bound fails without it). -/
theorem calculate_variance_nonneg (num_states : Nat) (payoff : List Int)
    (hne : payoff ≠ []) (hlen : num_states = payoff.length) :
    0 ≤ _calculate_variance num_states payoff := by
  subst hlen
  have hn : 0 < payoff.length := List.length_pos.mpr hne
  have hnq : (0 : ℚ) < (payoff.length : ℚ) := by exact_mod_cast hn
  have key : (((payoff.sum : Int) : ℚ)) ^ 2 ≤
      ((payoff.length : ℚ)) * (((payoff.map (fun outcome => outcome ^ 2)).sum : Int) : ℚ) := by
    exact_mod_cast sq_sum_le_length_mul_sum_sq payoff
  rw [show _calculate_variance payoff.length payoff =
      ((1 / (payoff.length : ℚ)) * (((payoff.map (fun outcome => outcome ^ 2)).sum : Int) : ℚ)
        - (1 / ((payoff.length : ℚ) ^ 2)) * (((payoff.sum : Int) : ℚ) ^ 2)) / 10000 from rfl]
  have hsplit : (1 / (payoff.length : ℚ)) * (((payoff.map (fun outcome => outcome ^ 2)).sum : Int) : ℚ)
        - (1 / ((payoff.length : ℚ) ^ 2)) * (((payoff.sum : Int) : ℚ) ^ 2)
      = ((payoff.length : ℚ) * (((payoff.map (fun outcome => outcome ^ 2)).sum : Int) : ℚ)
          - ((payoff.sum : Int) : ℚ) ^ 2) / (payoff.length : ℚ) ^ 2 := by
    field_simp
    ring
  rw [hsplit]
  apply div_nonneg _ (by norm_num)
  apply div_nonneg _ (by positivity)
  linarith

/-- C8 witness: the bound applied to the two-entry payoff sequence `[1, 2]`
with the matching state count 2. -/
theorem calculate_variance_nonneg_witness :
    (([1, 2] : List Int) ≠ [] ∧ 2 = ([1, 2] : List Int).length) ∧
    0 ≤ _calculate_variance 2 [1, 2] :=
  ⟨⟨by decide, rfl⟩, calculate_variance_nonneg 2 [1, 2] (by decide) rfl⟩

/-- C9: every combination the search enumerates - every element of
`_possible_combinations`, for every bot state - carries at most one order
per market: two legs at distinct positions always rest on distinct
markets. -/
theorem possible_combinations_one_leg_per_market (s : BotState) :
    ∀ c ∈ _possible_combinations s, ∀ j k : Fin c.length,
      j ≠ k → (c.get j).market_fm_id ≠ (c.get k).market_fm_id := by
  intro c hc j k hjk
  unfold _possible_combinations _possible_combinations_from at hc
  dsimp only at hc
  rw [List.mem_append] at hc
  rcases hc with hc | hc
  · rw [List.mem_map] at hc
    obtain ⟨o, _, rfl⟩ := hc
    have hj : j.val = 0 := by
      have hlt := j.isLt
      simp only [List.length_cons, List.length_nil] at hlt
      omega
    have hk : k.val = 0 := by
      have hlt := k.isLt
      simp only [List.length_cons, List.length_nil] at hlt
      omega
    exact absurd (Fin.ext (hj.trans hk.symm)) hjk
  · rw [List.mem_flatMap] at hc
    obtain ⟨i, _, hci⟩ := hc
    rw [List.mem_filter] at hci
    have hov : marketsOverlap c = false := by
      have := hci.2
      simpa using this
    unfold marketsOverlap at hov
    rw [decide_eq_false_iff_not] at hov
    push_neg at hov
    exact hov j k hjk

/-- C9 witness: the two-leg combination of the two example asks is
enumerated, and its legs rest on distinct markets. -/
theorem possible_combinations_one_leg_per_market_witness :
    [exAsk1, exAsk2] ∈ _possible_combinations exState ∧
    exAsk1.market_fm_id ≠ exAsk2.market_fm_id :=
  ⟨by with_unfolding_all decide,
    possible_combinations_one_leg_per_market exState [exAsk1, exAsk2]
      (by with_unfolding_all decide) ⟨0, by decide⟩ ⟨1, by decide⟩ (by decide)⟩

end CAPM

